import Mathlib

/-!
Verification of the territory-conquest tracking core
(`src/providers/SessionProvider.tsx` and `src/constants/game.ts`).

Coordinates, timestamps and owner strengths are modelled as rationals
(the source stores JS numbers; every operation the claims depend on is
field arithmetic and comparisons).  The two transcendental geometric
primitives are treated as follows:

* `toMetersXY` / `polygonAreaM2` are embedded over `ℝ` with `Real.cos`
  and `Real.pi`, exactly following the source formulas;
* the haversine distance and the area function are *parameters* of the
  loop-detector embedding (`findLoopStart`, `pathUpdate`): the detector
  only compares their values against the rational thresholds
  `LOOP_CLOSE_THRESHOLD_M`, `MIN_LOOP_DISTANCE_M`,
  `MIN_TERRITORY_AREA_M2`, so its control flow is independent of the
  metric, and the theorems below quantify over every choice of metric
  valued in a linear ordered field (which covers the real haversine).
-/

namespace TerritoryConquest

/-- `LatLng` from `SessionProvider.tsx`: a GPS sample. -/
structure LatLng where
  latitude : ℚ
  longitude : ℚ
  timestamp : ℚ
deriving DecidableEq, Repr

instance : Inhabited LatLng := ⟨⟨0, 0, 0⟩⟩

/-- `constants/game.ts`: `export const LOOP_CLOSE_THRESHOLD_M = 50`. -/
def LOOP_CLOSE_THRESHOLD_M : ℚ := 50

/-- `constants/game.ts`: `export const MIN_LOOP_DISTANCE_M = 20`. -/
def MIN_LOOP_DISTANCE_M : ℚ := 20

/-- `constants/game.ts`: `export const MIN_TERRITORY_AREA_M2 = 30`. -/
def MIN_TERRITORY_AREA_M2 : ℚ := 30

/-- `constants/game.ts`: `export const DAILY_DECAY_RATE = 0.02`. -/
def DAILY_DECAY_RATE : ℚ := 2 / 100

/-- The centered-window average of `points` over indices
`[i - w/2, min (length-1) (i + w/2)]` produced by one iteration of the
outer loop of `smoothPath` (natural subtraction models `Math.max(0, ·)`). -/
def windowAvg (points : List LatLng) (half i : ℕ) : LatLng :=
  let start := i - half
  let stop := min (points.length - 1) (i + half)
  let seg := (points.drop start).take (stop + 1 - start)
  let n : ℚ := seg.length
  { latitude := (seg.map (·.latitude)).sum / n
    longitude := (seg.map (·.longitude)).sum / n
    timestamp := ((round ((seg.map (·.timestamp)).sum / n) : ℤ) : ℚ) }

/-- `smoothPath` from `SessionProvider.tsx`: moving-average smoothing with
window size clamped to `[2,5]`; paths of length ≤ 2 are returned as-is. -/
def smoothPath (points : List LatLng) (windowSize : ℕ) : List LatLng :=
  if points.length ≤ 2 then points
  else
    let w := max 2 (min windowSize 5)
    (List.range points.length).map (windowAvg points (w / 2))

/-! ## Loop detector

The loop-detection effect of `SessionProvider.tsx` (the `useEffect` on
`path`) computes `smoothed = smoothPath(path, 3)` and, when
`smoothed.length > 10`, scans candidate start indices
`i = 0 .. max(0, length-10) - 1`; the first `i` whose point lies within
`LOOP_CLOSE_THRESHOLD_M` of the last smoothed point *and* whose
cumulative path distance to the end exceeds `MIN_LOOP_DISTANCE_M` wins
(`break`).  The metric is the source's `haversine`; the detector only
compares it to the thresholds, so it is a parameter `dist` here. -/

/-- Cumulative distance along consecutive points of a path, as summed by
the inner `for (j = i; j < smoothed.length - 1; j++)` loop. -/
def pathLen {α : Type} [LinearOrderedField α] (dist : LatLng → LatLng → α) :
    List LatLng → α
  | [] => 0
  | a :: t =>
      match t with
      | [] => 0
      | b :: _ => dist a b + pathLen dist t

/-- The acceptance test the scan applies to candidate index `i`:
`haversine(smoothed[i], last) < LOOP_CLOSE_THRESHOLD_M` and the
cumulative distance from `i` to the end `> MIN_LOOP_DISTANCE_M`. -/
def loopCond {α : Type} [LinearOrderedField α] (dist : LatLng → LatLng → α)
    (smoothed : List LatLng) (i : ℕ) : Prop :=
  dist (smoothed.getD i default) (smoothed.getD (smoothed.length - 1) default) <
      (LOOP_CLOSE_THRESHOLD_M : α) ∧
    (MIN_LOOP_DISTANCE_M : α) < pathLen dist (smoothed.drop i)

instance {α : Type} [LinearOrderedField α] (dist : LatLng → LatLng → α)
    (smoothed : List LatLng) (i : ℕ) : Decidable (loopCond dist smoothed i) :=
  inferInstanceAs (Decidable (And _ _))

/-- The candidate-scan of the loop-detection effect: for the smoothed
path, the first index `i < max 0 (length - 10)` satisfying `loopCond`
(the effect only runs it when `smoothed.length > 10`). -/
def findLoopStart {α : Type} [LinearOrderedField α]
    (dist : LatLng → LatLng → α) (smoothed : List LatLng) : Option ℕ :=
  if 10 < smoothed.length then
    (List.range (smoothed.length - 10)).find? fun i =>
      decide (loopCond dist smoothed i)
  else none

/-- One run of the loop-detection portion of the path effect: smooth the
live path with window 3, scan for a loop start, and on success capture
the sub-path from the start index as a polygon when its area meets
`MIN_TERRITORY_AREA_M2`, truncating the live path to
`smoothed.slice(0, loopStartIdx + 1)`.  Returns
`(captured polygon?, new live path)`; `area` stands for the source's
`polygonAreaM2`. -/
def pathUpdate {α : Type} [LinearOrderedField α] (dist : LatLng → LatLng → α)
    (area : List LatLng → α) (path : List LatLng) :
    Option (List LatLng) × List LatLng :=
  let smoothed := smoothPath path 3
  match findLoopStart dist smoothed with
  | some i =>
      let poly := smoothed.drop i
      if (MIN_TERRITORY_AREA_M2 : α) ≤ area poly then
        (some poly, smoothed.take (i + 1))
      else (none, path)
  | none => (none, path)

/-! ## Territories and ownership arbitration -/

/-- `ActivityMode` from `constants/game.ts`. -/
inductive ActivityMode where
  | walk
  | run
  | cycle
deriving DecidableEq, Repr

/-- `TerritoryOwner` from `constants/game.ts`. -/
structure TerritoryOwner where
  ownerId : String
  strength : ℚ
deriving DecidableEq, Repr

/-- `Territory` from `SessionProvider.tsx`. -/
structure Territory where
  id : String
  mode : ActivityMode
  polygon : List LatLng
  createdAt : ℤ
  owners : List TerritoryOwner
deriving DecidableEq, Repr

instance : Inhabited Territory := ⟨⟨"", .walk, [], 0, []⟩⟩

/-- An axis-aligned lat/lon bounding box. -/
structure BBox where
  minLat : ℚ
  minLon : ℚ
  maxLat : ℚ
  maxLon : ℚ
deriving DecidableEq, Repr

/-- `bbox` from `SessionProvider.tsx`: fold of `min`/`max` over the
polygon's coordinates.  The source initialises the bounds at `±Infinity`,
so an empty polygon gets an inverted infinite box that overlaps nothing;
that degenerate case is modelled as `none`. -/
def bbox : List LatLng → Option BBox
  | [] => none
  | p :: t =>
      match bbox t with
      | none => some ⟨p.latitude, p.longitude, p.latitude, p.longitude⟩
      | some B => some ⟨min p.latitude B.minLat, min p.longitude B.minLon,
          max p.latitude B.maxLat, max p.longitude B.maxLon⟩

/-- `bboxesOverlap` from `SessionProvider.tsx`. -/
def bboxesOverlap (a b : List LatLng) : Bool :=
  match bbox a, bbox b with
  | some A, some B =>
      !(decide (A.maxLat < B.minLat) || decide (A.minLat > B.maxLat) ||
        decide (A.maxLon < B.minLon) || decide (A.minLon > B.maxLon))
  | _, _ => false

/-- Mutation of the strength of the first owner entry matching `oid`
(the source mutates, in place, the object returned by `owners.find`). -/
def setStrengthFirst (oid : String) (s : ℚ) : List TerritoryOwner → List TerritoryOwner
  | [] => []
  | o :: t =>
      if o.ownerId = oid then { o with strength := s } :: t
      else o :: setStrengthFirst oid s t

/-- The owner-mutation cases the arbitration updater of
`SessionProvider.tsx` applies to one overlapped territory's `owners`:
exclusive strengthen (`+0.2`, clamped to 2.0), contested entry (append
at strength 0.5), contesting increment (`+0.5`, claim-over to
`[{oid, 1.0}]` when the result is ≥ 1.0 and exceeds the rivals' total). -/
def arbitrateOwners (oid : String) (owners : List TerritoryOwner) : List TerritoryOwner :=
  match owners.find? (fun o => o.ownerId == oid) with
  | some mine =>
      let others := owners.filter (fun o => o.ownerId != oid)
      if others.isEmpty then
        setStrengthFirst oid (min 2 (mine.strength + 2/10)) owners
      else
        let s := mine.strength + 5/10
        if 1 ≤ s ∧ (others.map (·.strength)).sum < s then [⟨oid, 1⟩]
        else setStrengthFirst oid s owners
  | none =>
      let others := owners.filter (fun o => o.ownerId != oid)
      if others.isEmpty then owners
      else owners ++ [⟨oid, 5/10⟩]

/-- The freshly captured `Territory` record (`newTerr` in the source):
sole owner at strength 1. -/
def mkTerritory (id : String) (mode : ActivityMode) (poly : List LatLng)
    (createdAt : ℤ) (oid : String) : Territory :=
  { id := id, mode := mode, polygon := poly, createdAt := createdAt,
    owners := [⟨oid, 1⟩] }

/-- The `setTerritories` updater of the capture handler: every existing
territory whose bounding box overlaps the new polygon has its owners
arbitrated; the new territory is prepended only when nothing overlapped. -/
def arbitrate (oid : String) (newTerr : Territory) (prev : List Territory) :
    List Territory :=
  let updated := prev.map fun t =>
    if bboxesOverlap t.polygon newTerr.polygon then
      { t with owners := arbitrateOwners oid t.owners }
    else t
  if prev.any (fun t => bboxesOverlap t.polygon newTerr.polygon) then updated
  else newTerr :: updated

/-- Owner lists reachable from a fresh capture (`[{oid, 1.0}]`) by any
sequence of arbitration steps. -/
inductive ReachableOwners : List TerritoryOwner → Prop
  | init (oid : String) : ReachableOwners [⟨oid, 1⟩]
  | step (oid : String) {l : List TerritoryOwner} :
      ReachableOwners l → ReachableOwners (arbitrateOwners oid l)

/-! ## Decay projector -/

/-- An owner as surfaced by the read-time decay projector: displayed
strength is real-valued. -/
structure DecayedOwner where
  ownerId : String
  strength : ℝ

/-- A territory as surfaced by the read-time decay projector. -/
structure DecayedTerritory where
  id : String
  mode : ActivityMode
  polygon : List LatLng
  createdAt : ℤ
  owners : List DecayedOwner

instance : Inhabited DecayedTerritory := ⟨⟨"", .walk, [], 0, []⟩⟩

/-- The decay factor of `decayedTerritories` in `SessionProvider.tsx`:
`days = (now - createdAt) / (1000*60*60*24)` (timestamps in ms) and
`decay = (1 - DAILY_DECAY_RATE) ^ max(0, days)` (real exponentiation,
as `Math.pow`). -/
noncomputable def decayFactor (now createdAt : ℤ) : ℝ :=
  (1 - (DAILY_DECAY_RATE : ℝ)) ^
    max 0 (((now : ℝ) - (createdAt : ℝ)) / (1000 * 60 * 60 * 24))

/-- The projection `decayedTerritories` applies to one stored territory:
every owner's displayed strength is the stored strength times the
territory's decay factor; nothing else changes. -/
noncomputable def decayTerritory (now : ℤ) (t : Territory) : DecayedTerritory :=
  { id := t.id, mode := t.mode, polygon := t.polygon, createdAt := t.createdAt,
    owners := t.owners.map fun o =>
      ⟨o.ownerId, (o.strength : ℝ) * decayFactor now t.createdAt⟩ }

/-- `decayedTerritories` from `SessionProvider.tsx` (the `useMemo`
projector): a pure map over the stored territories.  The source's
defensive filter of malformed records is the identity in this typed
model. -/
noncomputable def decayedTerritories (now : ℤ) (ts : List Territory) :
    List DecayedTerritory :=
  ts.map (decayTerritory now)

/-! ## Planar projection and polygon area -/

/-- `toMetersXY` from `SessionProvider.tsx`: equirectangular projection
about `originLat` (the longitude is scaled by `cos(originLat)`; the
origin longitude is not subtracted). -/
noncomputable def toMetersXY (originLat : ℚ) (p : LatLng) : ℝ × ℝ :=
  ((6378137 : ℝ) * (((p.longitude : ℝ) * Real.pi) / 180) *
      Real.cos (((originLat : ℝ) * Real.pi) / 180),
    (6378137 : ℝ) * ((((p.latitude : ℝ) - (originLat : ℝ)) * Real.pi) / 180))

/-- One term of the shoelace sum: `a.x * b.y - b.x * a.y`. -/
def crossXY (a b : ℝ × ℝ) : ℝ := a.1 * b.2 - b.1 * a.2

/-- The cyclic shoelace sum of `polygonAreaM2`: the loop pairs `pts[i]`
with `pts[(i+1) % n]`, i.e. consecutive points with wraparound, which is
`zip pts (pts.rotate 1)`. -/
noncomputable def shoelace (pts : List (ℝ × ℝ)) : ℝ :=
  ((pts.zip (pts.rotate 1)).map fun q => crossXY q.1 q.2).sum

/-- `polygonAreaM2` from `SessionProvider.tsx`: project about the first
point's latitude, take half the absolute shoelace sum; fewer than 3
points give area 0. -/
noncomputable def polygonAreaM2 (poly : List LatLng) : ℝ :=
  if poly.length < 3 then 0
  else |shoelace (poly.map (toMetersXY (poly.headI).latitude))| / 2

/-- Non-cyclic consecutive cross-product sum, used to analyse the
reversal behaviour of `shoelace`. -/
noncomputable def linSum : List (ℝ × ℝ) → ℝ
  | [] => 0
  | a :: t =>
      match t with
      | [] => 0
      | b :: _ => crossXY a b + linSum t

/-! ## Theorems -/

/-- C8: smoothing preserves the length of every input path, and any path
of length ≤ 2 is returned unchanged. -/
theorem smoothPath_length_and_short (points : List LatLng) (windowSize : ℕ) :
    (smoothPath points windowSize).length = points.length ∧
      (points.length ≤ 2 → smoothPath points windowSize = points) := by
  constructor
  · by_cases h : points.length ≤ 2
    · simp [smoothPath, h]
    · simp [smoothPath, h]
  · intro h
    simp [smoothPath, h]

/-- Witness for C8 at a concrete 2-point path. -/
theorem smoothPath_length_and_short_witness :
    smoothPath [⟨1, 2, 0⟩, ⟨3, 4, 5⟩] 3 = [⟨1, 2, 0⟩, ⟨3, 4, 5⟩] :=
  (smoothPath_length_and_short [⟨1, 2, 0⟩, ⟨3, 4, 5⟩] 3).2 (by decide)

theorem find?_eq_some_iff_first {p : ℕ → Bool} {l : List ℕ} {i : ℕ} :
    l.find? p = some i ↔ ∃ k : Fin l.length, l.get k = i ∧ p i = true ∧
      ∀ j : Fin l.length, (j : ℕ) < (k : ℕ) → p (l.get j) = false := by
  induction l with
  | nil => simp
  | cons a t ih =>
      by_cases ha : p a = true
      · simp only [List.find?, ha, Option.some.injEq]
        constructor
        · rintro rfl
          exact ⟨⟨0, by simp⟩, rfl, ha, fun j hj => absurd hj (by simp)⟩
        · rintro ⟨k, hk, hpi, hmin⟩
          rcases k with ⟨kv, hkv⟩
          cases kv with
          | zero => simpa using hk
          | succ m =>
              have := hmin ⟨0, by simp⟩ (by simp)
              simp only [List.get] at this
              rw [this] at ha
              exact absurd ha (by simp)
      · have ha' : p a = false := by simpa using ha
        simp only [List.find?, ha']
        rw [ih]
        constructor
        · rintro ⟨k, hk, hpi, hmin⟩
          refine ⟨⟨(k : ℕ) + 1, by simp [k.isLt]⟩, by simpa using hk, hpi, ?_⟩
          rintro ⟨jv, hjv⟩ hj
          cases jv with
          | zero => simpa using ha'
          | succ m =>
              have hm : m < t.length := by simpa using hjv
              have := hmin ⟨m, hm⟩ (by simpa using hj)
              simpa using this
        · rintro ⟨⟨kv, hkv⟩, hk, hpi, hmin⟩
          cases kv with
          | zero =>
              simp only [List.get] at hk
              rw [hk] at ha'
              rw [ha'] at hpi
              exact absurd hpi (by simp)
          | succ m =>
              have hm : m < t.length := by simpa using hkv
              refine ⟨⟨m, hm⟩, by simpa using hk, hpi, ?_⟩
              intro j hj
              have := hmin ⟨(j : ℕ) + 1, by simp [j.isLt]⟩ (by simpa using hj)
              simpa using this

/-- C1: the loop scan runs only on smoothed paths of more than 10
points; it returns index `i` exactly when `i` lies in the scan range
`[0, length-10)`, satisfies the two threshold tests (`< 50` m to the
last point, `> 20` m cumulative distance), and every earlier index
fails the test; and the path update captures a polygon exactly when a
candidate is accepted and the candidate sub-path's area is at least
`30` m² — at most one polygon per update.  Quantified over every
metric `dist` and area function valued in a linear ordered field,
which covers the source's haversine/`polygonAreaM2` instantiation. -/
theorem findLoopStart_spec {α : Type} [LinearOrderedField α]
    (dist : LatLng → LatLng → α) (area : List LatLng → α)
    (smoothed path : List LatLng) :
    (smoothed.length ≤ 10 → findLoopStart dist smoothed = none) ∧
      (∀ i, findLoopStart dist smoothed = some i ↔
        10 < smoothed.length ∧ i < smoothed.length - 10 ∧
          loopCond dist smoothed i ∧
          ∀ j < i, ¬ loopCond dist smoothed j) ∧
      (∀ poly, (pathUpdate dist area path).1 = some poly ↔
        ∃ i, findLoopStart dist (smoothPath path 3) = some i ∧
          poly = (smoothPath path 3).drop i ∧
          (MIN_TERRITORY_AREA_M2 : α) ≤ area poly) := by
  refine ⟨fun h => by simp [findLoopStart, Nat.not_lt.mpr h], fun i => ?_, fun poly => ?_⟩
  · constructor
    · intro h
      have h10 : 10 < smoothed.length := by
        by_contra h10
        simp [findLoopStart, Nat.not_lt.mpr (Nat.not_lt.mp h10)] at h
      rw [findLoopStart, if_pos h10, find?_eq_some_iff_first] at h
      obtain ⟨k, hk, hpi, hmin⟩ := h
      have hklen : (k : ℕ) < smoothed.length - 10 := by
        simpa using k.isLt
      have hki : (List.range (smoothed.length - 10)).get k = (k : ℕ) := by
        simp
      have hik : i = (k : ℕ) := by rw [← hk, hki]
      subst hik
      refine ⟨h10, hklen, by simpa using hpi, ?_⟩
      intro j hj
      have hjlen : j < smoothed.length - 10 := lt_trans hj hklen
      have := hmin ⟨j, by simpa using hjlen⟩ (by simpa using hj)
      simpa using this
    · rintro ⟨h10, hlen, hcond, hmin⟩
      rw [findLoopStart, if_pos h10, find?_eq_some_iff_first]
      refine ⟨⟨i, by simpa using hlen⟩, by simp, by simpa using hcond, ?_⟩
      rintro ⟨jv, hjv⟩ hj
      have : ¬ loopCond dist smoothed jv := hmin jv (by simpa using hj)
      simpa using this
  · cases hf : findLoopStart dist (smoothPath path 3) with
    | none => simp [pathUpdate, hf]
    | some i =>
        by_cases harea :
            (MIN_TERRITORY_AREA_M2 : α) ≤ area ((smoothPath path 3).drop i)
        · simp only [pathUpdate, hf, if_pos harea, Option.some.injEq]
          constructor
          · rintro rfl
            exact ⟨i, rfl, rfl, harea⟩
          · rintro ⟨i', hi', rfl, _⟩
            cases hi'
            rfl
        · simp only [pathUpdate, hf, if_neg harea]
          constructor
          · intro h
            simp at h
          · rintro ⟨i', hi', rfl, harea'⟩
            cases hi'
            exact absurd harea' harea

/-- Witness for C1: with the constant metric `3` on a 12-point path
(so the path distance from index 0 is `33 > 20` and every point is
within `3 < 50` of the last), the scan accepts index 0, and with area
`100 ≥ 30` the update captures the whole smoothed path. -/
theorem findLoopStart_spec_witness :
    findLoopStart (fun _ _ => (3 : ℚ)) (List.replicate 12 (⟨1, 2, 0⟩ : LatLng)) = some 0 ∧
      (pathUpdate (fun _ _ => (3 : ℚ)) (fun _ => (100 : ℚ))
          (List.replicate 12 (⟨1, 2, 0⟩ : LatLng))).1 =
        some ((smoothPath (List.replicate 12 (⟨1, 2, 0⟩ : LatLng)) 3).drop 0) := by
  have hs : smoothPath (List.replicate 12 (⟨1, 2, 0⟩ : LatLng)) 3 =
      List.replicate 12 (⟨1, 2, 0⟩ : LatLng) := by
    norm_num [smoothPath, windowAvg, List.range_succ, List.replicate]
  have hcond : loopCond (fun _ _ => (3 : ℚ)) (List.replicate 12 (⟨1, 2, 0⟩ : LatLng)) 0 := by
    norm_num [loopCond, pathLen, List.replicate, LOOP_CLOSE_THRESHOLD_M, MIN_LOOP_DISTANCE_M]
  have h1 : findLoopStart (fun _ _ => (3 : ℚ)) (List.replicate 12 (⟨1, 2, 0⟩ : LatLng)) =
      some 0 :=
    ((findLoopStart_spec (fun _ _ => (3 : ℚ)) (fun _ => (100 : ℚ))
        (List.replicate 12 (⟨1, 2, 0⟩ : LatLng)) []).2.1 0).mpr
      ⟨by norm_num, by norm_num, hcond, fun j hj => absurd hj (Nat.not_lt_zero j)⟩
  refine ⟨h1, ((findLoopStart_spec (fun _ _ => (3 : ℚ)) (fun _ => (100 : ℚ)) []
      (List.replicate 12 (⟨1, 2, 0⟩ : LatLng))).2.2 _).mpr ⟨0, ?_, rfl, ?_⟩⟩
  · rw [hs]; exact h1
  · norm_num [MIN_TERRITORY_AREA_M2]

/-- C5: when the scan accepts candidate index `i`, the live path is
replaced by `smoothed.slice(0, i+1)` (indices `0..i` inclusive — the
captured loop after the closure index is discarded, the pre-loop
portion is retained) exactly when the candidate polygon's area meets
the 30 m² threshold; when the area is below the threshold, or no
candidate is accepted, the live path is left untouched. -/
theorem pathUpdate_truncation {α : Type} [LinearOrderedField α]
    (dist : LatLng → LatLng → α) (area : List LatLng → α) (path : List LatLng) :
    (∀ i, findLoopStart dist (smoothPath path 3) = some i →
      ((MIN_TERRITORY_AREA_M2 : α) ≤ area ((smoothPath path 3).drop i) →
          (pathUpdate dist area path).2 = (smoothPath path 3).take (i + 1)) ∧
        (area ((smoothPath path 3).drop i) < (MIN_TERRITORY_AREA_M2 : α) →
          (pathUpdate dist area path).2 = path)) ∧
      (findLoopStart dist (smoothPath path 3) = none →
        (pathUpdate dist area path).2 = path) := by
  constructor
  · intro i hf
    constructor
    · intro harea
      simp [pathUpdate, hf, if_pos harea]
    · intro harea
      simp [pathUpdate, hf, if_neg (not_le.mpr harea)]
  · intro hf
    simp [pathUpdate, hf]

/-- Witness for C5: on the concrete 12-point path, with area 100 the
path is truncated to the single closure point; with area 0 it is left
untouched. -/
theorem pathUpdate_truncation_witness :
    (pathUpdate (fun _ _ => (3 : ℚ)) (fun _ => (100 : ℚ))
        (List.replicate 12 (⟨1, 2, 0⟩ : LatLng))).2 =
      (smoothPath (List.replicate 12 (⟨1, 2, 0⟩ : LatLng)) 3).take 1 ∧
      (pathUpdate (fun _ _ => (3 : ℚ)) (fun _ => (0 : ℚ))
          (List.replicate 12 (⟨1, 2, 0⟩ : LatLng))).2 =
        List.replicate 12 (⟨1, 2, 0⟩ : LatLng) := by
  have hs : smoothPath (List.replicate 12 (⟨1, 2, 0⟩ : LatLng)) 3 =
      List.replicate 12 (⟨1, 2, 0⟩ : LatLng) := by
    norm_num [smoothPath, windowAvg, List.range_succ, List.replicate]
  have h1 : findLoopStart (fun _ _ => (3 : ℚ))
      (smoothPath (List.replicate 12 (⟨1, 2, 0⟩ : LatLng)) 3) = some 0 := by
    rw [hs]
    norm_num [findLoopStart, loopCond, pathLen, List.replicate, List.range_succ,
      LOOP_CLOSE_THRESHOLD_M, MIN_LOOP_DISTANCE_M, List.find?]
  constructor
  · exact ((pathUpdate_truncation (fun _ _ => (3 : ℚ)) (fun _ => (100 : ℚ))
        (List.replicate 12 (⟨1, 2, 0⟩ : LatLng))).1 0 h1).1
      (by norm_num [MIN_TERRITORY_AREA_M2])
  · exact ((pathUpdate_truncation (fun _ _ => (3 : ℚ)) (fun _ => (0 : ℚ))
        (List.replicate 12 (⟨1, 2, 0⟩ : LatLng))).1 0 h1).2
      (by norm_num [MIN_TERRITORY_AREA_M2])

/-- Helper: the exclusive-strengthen branch on a sole-owner list. -/
theorem arbitrateOwners_single (A : String) (s : ℚ) :
    arbitrateOwners A [⟨A, s⟩] = [⟨A, min 2 (s + 2/10)⟩] := by
  simp [arbitrateOwners, setStrengthFirst, List.find?, List.filter]

/-- C2: from a territory owned solely by `A` at strength 1, three
successive overlapping captures by `B ≠ A` produce: contested entry
`{A:1, B:0.5}`; then `B` at 1.0 with no claim-over (1.0 is not strictly
greater than `A`'s 1.0); then `B` at 1.5 ≥ 1.0 and > 1.0, collapsing
the owners to exactly `[{B, 1.0}]`. -/
theorem arbitrateOwners_contest_claimover (A B : String) (h : A ≠ B) :
    arbitrateOwners B [⟨A, 1⟩] = [⟨A, 1⟩, ⟨B, 1/2⟩] ∧
      arbitrateOwners B [⟨A, 1⟩, ⟨B, 1/2⟩] = [⟨A, 1⟩, ⟨B, 1⟩] ∧
      arbitrateOwners B [⟨A, 1⟩, ⟨B, 1⟩] = [⟨B, 1⟩] := by
  have hab : (A == B) = false := beq_eq_false_iff_ne.mpr h
  have hab' : (A != B) = true := bne_iff_ne.mpr h
  refine ⟨?_, ?_, ?_⟩
  · simp [arbitrateOwners, List.find?, List.filter, hab, hab']
    norm_num
  · simp [arbitrateOwners, setStrengthFirst, List.find?, List.filter, hab, hab', h]
    norm_num
  · simp [arbitrateOwners, setStrengthFirst, List.find?, List.filter, hab, hab', h]
    norm_num

/-- Witness for C2 with the concrete owners `"A"` and `"B"`. -/
theorem arbitrateOwners_contest_claimover_witness :
    arbitrateOwners "B" [⟨"A", 1⟩] = [⟨"A", 1⟩, ⟨"B", 1/2⟩] ∧
      arbitrateOwners "B" [⟨"A", 1⟩, ⟨"B", 1/2⟩] = [⟨"A", 1⟩, ⟨"B", 1⟩] ∧
      arbitrateOwners "B" [⟨"A", 1⟩, ⟨"B", 1⟩] = [⟨"B", 1⟩] :=
  arbitrateOwners_contest_claimover "A" "B" (by decide)

/-- C3: a capture by the sole owner raises the stored strength by 0.2
clamped at 2.0; six repetitions starting from 1.0 give exactly 2.0, and
the stored strength stays ≤ 2.0 at every step along the way. -/
theorem arbitrateOwners_exclusive_clamp (A : String) :
    (∀ s : ℚ, arbitrateOwners A [⟨A, s⟩] = [⟨A, min 2 (s + 2/10)⟩]) ∧
      (fun l => arbitrateOwners A l)^[6] [⟨A, 1⟩] = [⟨A, 2⟩] ∧
      ∀ k ≤ 6, ∀ o ∈ (fun l => arbitrateOwners A l)^[k] [⟨A, 1⟩], o.strength ≤ 2 := by
  have h1 : arbitrateOwners A [⟨A, (1 : ℚ)⟩] = [⟨A, 6/5⟩] := by
    rw [arbitrateOwners_single]; norm_num [min_def]
  have h2 : arbitrateOwners A [⟨A, (6/5 : ℚ)⟩] = [⟨A, 7/5⟩] := by
    rw [arbitrateOwners_single]; norm_num [min_def]
  have h3 : arbitrateOwners A [⟨A, (7/5 : ℚ)⟩] = [⟨A, 8/5⟩] := by
    rw [arbitrateOwners_single]; norm_num [min_def]
  have h4 : arbitrateOwners A [⟨A, (8/5 : ℚ)⟩] = [⟨A, 9/5⟩] := by
    rw [arbitrateOwners_single]; norm_num [min_def]
  have h5 : arbitrateOwners A [⟨A, (9/5 : ℚ)⟩] = [⟨A, 2⟩] := by
    rw [arbitrateOwners_single]; norm_num [min_def]
  have h6 : arbitrateOwners A [⟨A, (2 : ℚ)⟩] = [⟨A, 2⟩] := by
    rw [arbitrateOwners_single]; norm_num [min_def]
  refine ⟨arbitrateOwners_single A, ?_, ?_⟩
  · simp [Function.iterate_succ_apply, h1, h2, h3, h4, h5, h6]
  · intro k hk
    interval_cases k <;>
      simp [Function.iterate_succ_apply, h1, h2, h3, h4, h5, h6] <;> norm_num

/-- Witness for C3 with the concrete owner `"A"`, including the
along-the-way bound at step 3. -/
theorem arbitrateOwners_exclusive_clamp_witness :
    (fun l => arbitrateOwners "A" l)^[6] [⟨"A", 1⟩] = [⟨"A", 2⟩] ∧
      ∀ o ∈ (fun l => arbitrateOwners "A" l)^[3] [⟨"A", 1⟩], o.strength ≤ 2 :=
  ⟨(arbitrateOwners_exclusive_clamp "A").2.1,
    (arbitrateOwners_exclusive_clamp "A").2.2 3 (by norm_num)⟩
/-- Helper: updating the first matching owner's strength keeps the
ownerId sequence unchanged. -/
theorem setStrengthFirst_map_ownerId (oid : String) (s : ℚ) (l : List TerritoryOwner) :
    (setStrengthFirst oid s l).map (·.ownerId) = l.map (·.ownerId) := by
  induction l with
  | nil => rfl
  | cons o t ih =>
      by_cases h : o.ownerId = oid
      · simp [setStrengthFirst, h]
      · simp [setStrengthFirst, h, ih]

/-- C9: each arbitration owner-mutation case maps a territory owners
list with pairwise-distinct `ownerId`s to a list with pairwise-distinct
`ownerId`s. -/
theorem arbitrateOwners_nodup (oid : String) (owners : List TerritoryOwner)
    (h : (owners.map (·.ownerId)).Nodup) :
    ((arbitrateOwners oid owners).map (·.ownerId)).Nodup := by
  unfold arbitrateOwners
  cases hf : owners.find? (fun o => o.ownerId == oid) with
  | some mine =>
      by_cases he : (owners.filter (fun o => o.ownerId != oid)).isEmpty
      · simpa [he, setStrengthFirst_map_ownerId] using h
      · by_cases hc : 1 ≤ mine.strength + 5/10 ∧
            ((owners.filter (fun o => o.ownerId != oid)).map (·.strength)).sum <
              mine.strength + 5/10
        · simp [he, hc]
        · simpa [he, hc, setStrengthFirst_map_ownerId] using h
  | none =>
      by_cases he : (owners.filter (fun o => o.ownerId != oid)).isEmpty
      · simpa [he] using h
      · have hnot : oid ∉ owners.map (·.ownerId) := by
          intro hmem
          obtain ⟨o, ho, hoid⟩ := List.mem_map.mp hmem
          have hfo := List.find?_eq_none.mp hf o ho
          simp [hoid] at hfo
        rw [if_neg he, List.map_append]
        refine List.Nodup.append h ?_ ?_
        · simp
        · intro a ha hb
          simp at hb
          exact hnot (hb ▸ ha)

/-- Witness for C9: a contested-entry step on a concrete sole-owner
list keeps the ownerIds distinct. -/
theorem arbitrateOwners_nodup_witness :
    ((arbitrateOwners "B" [⟨"A", 1⟩]).map (·.ownerId)).Nodup :=
  arbitrateOwners_nodup "B" [⟨"A", 1⟩] (by decide)
/-- C4: capturing a polygon whose bounding box intersects no existing
territory's bounding box prepends exactly one new territory owned by
`[{oid, 1.0}]` and leaves every existing territory unchanged; when at
least one bounding box overlaps, no new territory is inserted — the
result has the same length, non-overlapping territories are untouched
and overlapping ones get their owners arbitrated. -/
theorem arbitrate_insert_or_fold (oid id : String) (mode : ActivityMode)
    (poly : List LatLng) (createdAt : ℤ) (prev : List Territory) :
    (mkTerritory id mode poly createdAt oid).owners = [⟨oid, 1⟩] ∧
      ((∀ t ∈ prev, ¬ bboxesOverlap t.polygon poly) →
        arbitrate oid (mkTerritory id mode poly createdAt oid) prev =
          mkTerritory id mode poly createdAt oid :: prev) ∧
      ((∃ t ∈ prev, bboxesOverlap t.polygon poly) →
        (arbitrate oid (mkTerritory id mode poly createdAt oid) prev).length =
            prev.length ∧
          ∀ i, ∀ hi : i < prev.length,
            (¬ bboxesOverlap prev[i].polygon poly →
              (arbitrate oid (mkTerritory id mode poly createdAt oid) prev).getD i
                  default = prev[i]) ∧
            (bboxesOverlap prev[i].polygon poly →
              (arbitrate oid (mkTerritory id mode poly createdAt oid) prev).getD i
                  default =
                { prev[i] with owners := arbitrateOwners oid prev[i].owners })) := by
  have hpoly : (mkTerritory id mode poly createdAt oid).polygon = poly := rfl
  refine ⟨rfl, ?_, ?_⟩
  · intro h
    have hany : (prev.any fun t =>
        bboxesOverlap t.polygon (mkTerritory id mode poly createdAt oid).polygon) =
          false := by
      rw [List.any_eq_false]
      intro t ht
      rw [hpoly]
      simpa using h t ht
    have hmap : (prev.map fun t =>
        if bboxesOverlap t.polygon (mkTerritory id mode poly createdAt oid).polygon then
          { t with owners := arbitrateOwners oid t.owners }
        else t) = prev := by
      conv_rhs => rw [← List.map_id prev]
      refine List.map_congr_left fun t ht => ?_
      rw [hpoly]
      simp [h t ht]
    simp only [arbitrate, hany, Bool.false_eq_true, if_false, hmap]
  · intro hex
    have hany : (prev.any fun t =>
        bboxesOverlap t.polygon (mkTerritory id mode poly createdAt oid).polygon) =
          true := by
      rw [List.any_eq_true]
      obtain ⟨t, ht, hb⟩ := hex
      exact ⟨t, ht, by rw [hpoly]; exact hb⟩
    have harb : arbitrate oid (mkTerritory id mode poly createdAt oid) prev =
        prev.map fun t =>
          if bboxesOverlap t.polygon (mkTerritory id mode poly createdAt oid).polygon then
            { t with owners := arbitrateOwners oid t.owners }
          else t := by
      simp only [arbitrate, hany, if_true]
    constructor
    · rw [harb, List.length_map]
    · intro i hi
      have hi' : i < (prev.map fun t =>
          if bboxesOverlap t.polygon (mkTerritory id mode poly createdAt oid).polygon then
            { t with owners := arbitrateOwners oid t.owners }
          else t).length := by
        simpa using hi
      constructor
      · intro hnb
        rw [harb, List.getD_eq_getElem _ _ hi', List.getElem_map]
        simp [mkTerritory, hnb]
      · intro hb
        rw [harb, List.getD_eq_getElem _ _ hi', List.getElem_map]
        simp [mkTerritory, hb]

/-- Witness for C4: capture into an empty territory set inserts exactly
the new sole-owner territory; capture over one overlapping territory
keeps the territory count at one. -/
theorem arbitrate_insert_or_fold_witness :
    arbitrate "A" (mkTerritory "new" .walk [⟨0, 0, 0⟩, ⟨0, 1, 0⟩, ⟨1, 0, 0⟩] 7 "A") [] =
        [mkTerritory "new" .walk [⟨0, 0, 0⟩, ⟨0, 1, 0⟩, ⟨1, 0, 0⟩] 7 "A"] ∧
      (arbitrate "A" (mkTerritory "new" .walk [⟨0, 0, 0⟩, ⟨0, 1, 0⟩, ⟨1, 0, 0⟩] 7 "A")
          [⟨"old", .walk, [⟨0, 0, 0⟩, ⟨0, 1, 0⟩, ⟨1, 0, 0⟩], 0, [⟨"B", 1⟩]⟩]).length = 1 := by
  have hover : bboxesOverlap
      (⟨"old", .walk, [⟨0, 0, 0⟩, ⟨0, 1, 0⟩, ⟨1, 0, 0⟩], 0,
        [⟨"B", (1 : ℚ)⟩]⟩ : Territory).polygon [⟨0, 0, 0⟩, ⟨0, 1, 0⟩, ⟨1, 0, 0⟩] = true := by
    norm_num [bboxesOverlap, bbox, min_def, max_def]
  exact ⟨(arbitrate_insert_or_fold "A" "new" .walk [⟨0, 0, 0⟩, ⟨0, 1, 0⟩, ⟨1, 0, 0⟩] 7 []).2.1
      (fun t ht => absurd ht (List.not_mem_nil t)),
    ((arbitrate_insert_or_fold "A" "new" .walk [⟨0, 0, 0⟩, ⟨0, 1, 0⟩, ⟨1, 0, 0⟩] 7
        [⟨"old", .walk, [⟨0, 0, 0⟩, ⟨0, 1, 0⟩, ⟨1, 0, 0⟩], 0, [⟨"B", 1⟩]⟩]).2.2
      ⟨_, List.mem_singleton.mpr rfl, hover⟩).1⟩
/-- Helper: transport reachability along an evaluated arbitration step. -/
theorem reachable_step_eq {l l' : List TerritoryOwner} (oid : String)
    (hr : ReachableOwners l) (he : arbitrateOwners oid l = l') : ReachableOwners l' :=
  he ▸ ReachableOwners.step oid hr

/-- C10: the contesting-increment branch applies `+0.5` with no clamp:
the reachable owners list `[{A:2}, {B:2}, {C:1}]` (A strengthened to the
2.0 cap, then B and C contesting) has `A` contesting at stored strength
2.0 with rivals totalling `3 > 2.5`, and one more capture by `A` leaves
`A`'s stored strength at `2.5 > 2.0`. -/
theorem contest_increment_unclamped :
    ∃ l : List TerritoryOwner, ReachableOwners l ∧
      ∃ mine ∈ l, mine.ownerId = "A" ∧ mine.strength = 2 ∧
        5/2 < ((l.filter fun o => o.ownerId != "A").map (·.strength)).sum ∧
        ∃ o ∈ arbitrateOwners "A" l, o.ownerId = "A" ∧ 2 < o.strength := by
  have hBA : (("B" : String) == "A") = false := by decide
  have hCA : (("C" : String) == "A") = false := by decide
  have hAB : (("A" : String) == "B") = false := by decide
  have hAC : (("A" : String) == "C") = false := by decide
  have hBC : (("B" : String) == "C") = false := by decide
  have hBA' : (("B" : String) != "A") = true := by decide
  have hCA' : (("C" : String) != "A") = true := by decide
  have hAB' : (("A" : String) != "B") = true := by decide
  have hAC' : (("A" : String) != "C") = true := by decide
  have hBC' : (("B" : String) != "C") = true := by decide
  have hAne : (("A" : String) ≠ "B") := by decide
  have hAneC : (("A" : String) ≠ "C") := by decide
  have hBneC : (("B" : String) ≠ "C") := by decide
  have e1 : arbitrateOwners "A" [⟨"A", 1⟩] = [⟨"A", 6/5⟩] := by
    rw [arbitrateOwners_single]; norm_num [min_def]
  have e2 : arbitrateOwners "A" [⟨"A", 6/5⟩] = [⟨"A", 7/5⟩] := by
    rw [arbitrateOwners_single]; norm_num [min_def]
  have e3 : arbitrateOwners "A" [⟨"A", 7/5⟩] = [⟨"A", 8/5⟩] := by
    rw [arbitrateOwners_single]; norm_num [min_def]
  have e4 : arbitrateOwners "A" [⟨"A", 8/5⟩] = [⟨"A", 9/5⟩] := by
    rw [arbitrateOwners_single]; norm_num [min_def]
  have e5 : arbitrateOwners "A" [⟨"A", 9/5⟩] = [⟨"A", 2⟩] := by
    rw [arbitrateOwners_single]; norm_num [min_def]
  have e6 : arbitrateOwners "B" [⟨"A", 2⟩] = [⟨"A", 2⟩, ⟨"B", 1/2⟩] := by
    simp [arbitrateOwners, List.find?, List.filter, hAB, hAB']
    norm_num
  have e7 : arbitrateOwners "B" [⟨"A", 2⟩, ⟨"B", 1/2⟩] = [⟨"A", 2⟩, ⟨"B", 1⟩] := by
    simp [arbitrateOwners, setStrengthFirst, List.find?, List.filter, hAB, hAB', hAne]
    norm_num
  have e8 : arbitrateOwners "B" [⟨"A", 2⟩, ⟨"B", 1⟩] = [⟨"A", 2⟩, ⟨"B", 3/2⟩] := by
    simp [arbitrateOwners, setStrengthFirst, List.find?, List.filter, hAB, hAB', hAne]
    norm_num
  have e9 : arbitrateOwners "B" [⟨"A", 2⟩, ⟨"B", 3/2⟩] = [⟨"A", 2⟩, ⟨"B", 2⟩] := by
    simp [arbitrateOwners, setStrengthFirst, List.find?, List.filter, hAB, hAB', hAne]
    norm_num
  have e10 : arbitrateOwners "C" [⟨"A", 2⟩, ⟨"B", 2⟩] =
      [⟨"A", 2⟩, ⟨"B", 2⟩, ⟨"C", 1/2⟩] := by
    simp [arbitrateOwners, List.find?, List.filter, hAC, hBC, hAC', hBC']
    norm_num
  have e11 : arbitrateOwners "C" [⟨"A", 2⟩, ⟨"B", 2⟩, ⟨"C", 1/2⟩] =
      [⟨"A", 2⟩, ⟨"B", 2⟩, ⟨"C", 1⟩] := by
    simp [arbitrateOwners, setStrengthFirst, List.find?, List.filter, hAC, hBC, hAC',
      hBC', hAneC, hBneC]
    norm_num
  have e12 : arbitrateOwners "A" [⟨"A", 2⟩, ⟨"B", 2⟩, ⟨"C", 1⟩] =
      [⟨"A", 5/2⟩, ⟨"B", 2⟩, ⟨"C", 1⟩] := by
    simp [arbitrateOwners, setStrengthFirst, List.find?, List.filter, hBA, hCA, hBA', hCA']
    norm_num
  have hr : ReachableOwners [⟨"A", 2⟩, ⟨"B", 2⟩, ⟨"C", 1⟩] :=
    reachable_step_eq "C"
      (reachable_step_eq "C"
        (reachable_step_eq "B"
          (reachable_step_eq "B"
            (reachable_step_eq "B"
              (reachable_step_eq "B"
                (reachable_step_eq "A"
                  (reachable_step_eq "A"
                    (reachable_step_eq "A"
                      (reachable_step_eq "A"
                        (reachable_step_eq "A" (ReachableOwners.init "A") e1) e2) e3)
                    e4) e5) e6) e7) e8) e9) e10) e11
  refine ⟨[⟨"A", 2⟩, ⟨"B", 2⟩, ⟨"C", 1⟩], hr, ⟨"A", 2⟩, by simp, rfl, rfl, ?_, ?_⟩
  · simp [List.filter, hBA', hCA']
    norm_num
  · refine ⟨⟨"A", 5/2⟩, ?_, rfl, by norm_num⟩
    rw [e12]
    simp
/-- C6: the decay projector is a pure read-time transform: it has the
same length as the stored list, each projected territory keeps its
identity fields and polygon, every owner's displayed strength is the
stored strength times `(1 - 0.02) ^ max 0 ((now - createdAt) / 86400000)`,
and a territory created exactly `now` (0 days ago) has decay factor 1.
The stored territories are never mutated: the projector is a function
of the stored list, whose entries appear unchanged on the right-hand
sides below. -/
theorem decayedTerritories_spec (now : ℤ) (ts : List Territory) :
    (decayedTerritories now ts).length = ts.length ∧
      (∀ i, ∀ hi : i < ts.length,
        (decayedTerritories now ts).getD i default =
          { id := ts[i].id, mode := ts[i].mode, polygon := ts[i].polygon,
            createdAt := ts[i].createdAt,
            owners := ts[i].owners.map fun o =>
              ⟨o.ownerId, (o.strength : ℝ) * decayFactor now ts[i].createdAt⟩ }) ∧
      ∀ c : ℤ, decayFactor c c = 1 := by
  refine ⟨by simp [decayedTerritories], ?_, ?_⟩
  · intro i hi
    have hi' : i < (decayedTerritories now ts).length := by
      simpa [decayedTerritories] using hi
    rw [decayedTerritories] at hi' ⊢
    rw [List.getD_eq_getElem _ _ hi', List.getElem_map]
    rfl
  · intro c
    simp [decayFactor, Real.rpow_zero]
/-- Helper: the cross term is antisymmetric. -/
theorem crossXY_swap (a b : ℝ × ℝ) : crossXY b a = -crossXY a b := by
  simp [crossXY]

/-- Helper: the cyclic zip of `shoelace` as a linear sum with an
explicit closing pair. -/
theorem zip_rot_sum (t : List (ℝ × ℝ)) : ∀ c a : ℝ × ℝ,
    (((c :: t).zip (t ++ [a])).map fun q => crossXY q.1 q.2).sum =
      linSum ((c :: t) ++ [a]) := by
  induction t with
  | nil =>
      intro c a
      simp [linSum]
  | cons b t' ih =>
      intro c a
      simp only [List.cons_append, List.zip_cons_cons, List.map_cons, List.sum_cons]
      rw [ih b a]
      simp [linSum]

/-- Helper: appending one point to a non-empty list adds one closing
cross term to `linSum`. -/
theorem linSum_concat (u : List (ℝ × ℝ)) : ∀ c x : ℝ × ℝ,
    linSum ((c :: u) ++ [x]) = linSum (c :: u) + crossXY ((c :: u).getLastD c) x := by
  induction u with
  | nil =>
      intro c x
      simp [linSum]
  | cons d u' ih =>
      intro c x
      have h1 : linSum ((c :: d :: u') ++ [x]) =
          crossXY c d + linSum ((d :: u') ++ [x]) := by
        simp [linSum, List.cons_append]
      have h2 : linSum (c :: d :: u') = crossXY c d + linSum (d :: u') := by
        simp [linSum]
      rw [h1, ih d x, h2]
      simp only [List.getLastD_cons]
      ring

/-- Helper: reversing a list negates its linear cross sum. -/
theorem linSum_reverse (l : List (ℝ × ℝ)) : linSum l.reverse = -linSum l := by
  induction l with
  | nil => simp [linSum]
  | cons a t ih =>
      cases t with
      | nil => simp [linSum]
      | cons b t' =>
          rw [List.reverse_cons]
          obtain ⟨c, u, hcu⟩ : ∃ c u, (b :: t').reverse = c :: u := by
            cases h : (b :: t').reverse with
            | nil => exact absurd (congrArg List.length h) (by simp)
            | cons c u => exact ⟨c, u, rfl⟩
          rw [hcu, linSum_concat u c a]
          have hlast : (c :: u).getLastD c = b := by
            rw [← hcu, List.getLastD_eq_getLast?, List.getLast?_reverse]
            rfl
          rw [hlast, ← hcu, ih]
          have h2 : linSum (a :: b :: t') = crossXY a b + linSum (b :: t') := by
            simp [linSum]
          rw [h2, crossXY_swap]
          ring

/-- Helper: the cyclic shoelace sum of a non-empty list closes the
linear sum with its own head. -/
theorem shoelace_cons (a : ℝ × ℝ) (t : List (ℝ × ℝ)) :
    shoelace (a :: t) = linSum ((a :: t) ++ [a]) := by
  rw [shoelace]
  rw [show (a :: t).rotate 1 = t ++ [a] by simpa using List.rotate_cons_succ t a 0]
  exact zip_rot_sum t a a

/-- Helper: reversing a list negates its cyclic shoelace sum. -/
theorem shoelace_reverse (l : List (ℝ × ℝ)) : shoelace l.reverse = -shoelace l := by
  cases l with
  | nil => simp [shoelace]
  | cons a t =>
      obtain ⟨c, u, hcu⟩ : ∃ c u, (a :: t).reverse = c :: u := by
        cases h : (a :: t).reverse with
        | nil => exact absurd (congrArg List.length h) (by simp)
        | cons c u => exact ⟨c, u, rfl⟩
      have hrev : linSum (((a :: t) ++ [a]).reverse) = -linSum ((a :: t) ++ [a]) :=
        linSum_reverse _
      rw [List.reverse_append] at hrev
      simp only [List.reverse_singleton, List.singleton_append] at hrev
      rw [hcu] at hrev
      have h2 : linSum (a :: c :: u) = crossXY a c + linSum (c :: u) := by
        simp [linSum]
      rw [h2] at hrev
      have hlast : (c :: u).getLastD c = a := by
        rw [← hcu, List.getLastD_eq_getLast?, List.getLast?_reverse]
        rfl
      rw [hcu, shoelace_cons c u, shoelace_cons a t, linSum_concat u c c, hlast,
        ← hrev]
      ring
/-- C7 (amended): any input with fewer than 3 points has area exactly 0
(unconditionally), and the area is unchanged by reversing the point
order *provided the first and last points share a latitude* (reversal
changes the projection origin `poly[0].latitude`, which rescales the
x-axis by the cosine of the origin latitude). -/
theorem polygonAreaM2_reverse (p : List LatLng) :
    (p.length < 3 → polygonAreaM2 p = 0) ∧
      ((p.reverse.headI).latitude = (p.headI).latitude →
        polygonAreaM2 p.reverse = polygonAreaM2 p) := by
  constructor
  · intro h3
    rw [polygonAreaM2, if_pos h3]
  · intro h
    by_cases h3 : p.length < 3
    · rw [polygonAreaM2, polygonAreaM2, if_pos h3, if_pos (by simpa using h3)]
    · rw [polygonAreaM2, polygonAreaM2, if_neg h3, if_neg (by simpa using h3)]
      rw [h, List.map_reverse, shoelace_reverse, abs_neg]
/-- Helper: closed form of the area of the triangle `(0,0), (0,90), (60,0)`
(projection origin latitude 0, `cos 0 = 1`). -/
theorem polygonAreaM2_fwd_eval : polygonAreaM2 ([⟨0, 0, 0⟩, ⟨0, 90, 0⟩, ⟨60, 0, 0⟩] : List LatLng) =
    6378137 ^ 2 * Real.pi ^ 2 / 12 := by
  rw [polygonAreaM2, if_neg (by norm_num)]
  have hs : shoelace (List.map
      (toMetersXY ((([⟨0, 0, 0⟩, ⟨0, 90, 0⟩, ⟨60, 0, 0⟩] : List LatLng)).headI.latitude))
      [⟨0, 0, 0⟩, ⟨0, 90, 0⟩, ⟨60, 0, 0⟩]) = 6378137 ^ 2 * Real.pi ^ 2 / 6 := by
    norm_num [shoelace, toMetersXY, crossXY, List.rotate, List.headI, Real.cos_zero]
    ring
  rw [hs, abs_of_nonneg (by positivity)]
  ring
/-- Helper: closed form of the area of the same triangle reversed
(projection origin latitude 60, `cos (pi/3) = 1/2` halves the x-scale). -/
theorem polygonAreaM2_rev_eval : polygonAreaM2 ([⟨60, 0, 0⟩, ⟨0, 90, 0⟩, ⟨0, 0, 0⟩] : List LatLng) =
    6378137 ^ 2 * Real.pi ^ 2 / 24 := by
  have hc : Real.cos ((60 : ℝ) * Real.pi / 180) = 1 / 2 := by
    rw [show (60 : ℝ) * Real.pi / 180 = Real.pi / 3 by ring]
    exact Real.cos_pi_div_three
  rw [polygonAreaM2, if_neg (by norm_num)]
  have hs : shoelace (List.map
      (toMetersXY ((([⟨60, 0, 0⟩, ⟨0, 90, 0⟩, ⟨0, 0, 0⟩] : List LatLng)).headI.latitude))
      [⟨60, 0, 0⟩, ⟨0, 90, 0⟩, ⟨0, 0, 0⟩]) = -(6378137 ^ 2 * Real.pi ^ 2 / 12) := by
    norm_num [shoelace, toMetersXY, crossXY, List.rotate, List.headI]
    rw [hc]
    ring
  rw [hs, abs_of_nonpos (neg_nonpos.mpr (by positivity))]
  ring
/-- Counterexample for C7 as stated: reversing the triangle
`(0,0), (0,90), (60,0)` changes the computed area (from
`R^2 pi^2 / 12` to `R^2 pi^2 / 24`), because the projection origin
latitude moves from 0 to 60 and rescales the x-axis by `cos`. -/
theorem polygonAreaM2_reverse_counterexample :
    polygonAreaM2 ([⟨0, 0, 0⟩, ⟨0, 90, 0⟩, ⟨60, 0, 0⟩] : List LatLng).reverse ≠
      polygonAreaM2 [⟨0, 0, 0⟩, ⟨0, 90, 0⟩, ⟨60, 0, 0⟩] := by
  have hrev : ([⟨0, 0, 0⟩, ⟨0, 90, 0⟩, ⟨60, 0, 0⟩] : List LatLng).reverse =
      [⟨60, 0, 0⟩, ⟨0, 90, 0⟩, ⟨0, 0, 0⟩] := rfl
  rw [hrev, polygonAreaM2_rev_eval, polygonAreaM2_fwd_eval]
  intro heq
  have hpi := Real.pi_pos
  nlinarith [mul_pos hpi hpi, sq_nonneg Real.pi]

/-- Witness for the amended C7: a 2-point input with *differing*
endpoint latitudes has area 0 (the short-input part needs no latitude
hypothesis), and reversal preserves the area of a triangle whose first
and last points share latitude 0. -/
theorem polygonAreaM2_reverse_witness :
    polygonAreaM2 ([⟨0, 0, 0⟩, ⟨1, 0, 0⟩] : List LatLng) = 0 ∧
      polygonAreaM2 ([⟨0, 0, 0⟩, ⟨1, 1, 0⟩, ⟨0, 2, 0⟩] : List LatLng).reverse =
        polygonAreaM2 [⟨0, 0, 0⟩, ⟨1, 1, 0⟩, ⟨0, 2, 0⟩] :=
  ⟨(polygonAreaM2_reverse [⟨0, 0, 0⟩, ⟨1, 0, 0⟩]).1 (by decide),
    (polygonAreaM2_reverse [⟨0, 0, 0⟩, ⟨1, 1, 0⟩, ⟨0, 2, 0⟩]).2 (by decide)⟩
/-- Witness for C6: zero elapsed days give factor 1, and a concrete
one-territory projection at `now = createdAt = 5`. -/
theorem decayedTerritories_spec_witness :
    decayFactor 0 0 = 1 ∧
      (decayedTerritories 5 [⟨"t", .walk, [], 5, [⟨"A", 1⟩]⟩]).getD 0 default =
        ⟨"t", .walk, [], 5, [⟨"A", ((1 : ℚ) : ℝ) * decayFactor 5 5⟩]⟩ :=
  ⟨(decayedTerritories_spec 0 []).2.2 0,
    (decayedTerritories_spec 5 [⟨"t", .walk, [], 5, [⟨"A", 1⟩]⟩]).2.1 0 (by norm_num)⟩
end TerritoryConquest
